import Mathlib

/-!
Verification of the gift-raffle CSV/assignment/persistence core
(`src/utils/indexedDb.ts`, `src/pages/AdminPage.tsx`).

The TypeScript code is shallowly embedded: pure functions become Lean
functions; the IndexedDB-backed store becomes explicit state passing on a
`Store` value; asynchronous request outcomes become sum types; JS `number`
is modelled as `Rat` (with an explicit `JsCost` type where `undefined` and
`NaN` matter); fallible parsing returns `Except`.
-/

/-- JS value of the optional `cost` field: `undefined`, `NaN`, or a finite
number (modelled as `Rat`). -/
inductive JsCost where
  | undef : JsCost
  | nan : JsCost
  | num : Rat → JsCost
deriving DecidableEq, Repr

/-- `Participant` from `types.ts`: `id`, `name`, optional `employeeNumber`
and `email`. -/
structure Participant where
  id : String
  name : String
  employeeNumber : Option String
  email : Option String
deriving DecidableEq, Repr

/-- `Gift` from `types.ts`: `id`, `category`, `prize`, `unit` (the `uds`
column, always set to a string by the parser, possibly empty) and optional
`cost`. -/
structure Gift where
  id : String
  category : String
  prize : String
  unit : String
  cost : JsCost
deriving DecidableEq, Repr

/-- `Winner` from `types.ts`: a pairing record owning one participant and
one gift. -/
structure Winner where
  id : String
  participant : Participant
  gift : Gift
deriving DecidableEq, Repr

/-- State of the IndexedDB database `giftRaffleDB`: the `winners` object
store (keyed by `Winner.id`) and the `meta` object store (keyed by the
string key). -/
structure Store where
  winners : List Winner
  meta : List (String × String)
deriving DecidableEq, Repr

/-- `store.put(winner)` on an object store with `keyPath: 'id'`: replaces
the record with the same key if present, otherwise inserts. -/
def putById : List Winner → Winner → List Winner
  | [], w => [w]
  | x :: t, w => if x.id = w.id then w :: t else x :: putById t w

/-- `store.put({key, value})` on the `meta` store with `keyPath: 'key'`. -/
def metaPut : List (String × String) → String → String → List (String × String)
  | [], k, v => [(k, v)]
  | p :: t, k, v => if p.1 = k then (k, v) :: t else p :: metaPut t k v

/-- `saveWinners` (`indexedDb.ts` lines 43-51): within one readwrite
transaction clears the `winners` store and puts every winner, then puts
`meta.lastSavedAt = now` (the timestamp is passed in explicitly since
`new Date().toISOString()` is ambient). -/
def saveWinners (st : Store) (winners : List Winner) (now : String) : Store :=
  { winners := winners.foldl putById [],
    meta := metaPut st.meta "lastSavedAt" now }

/-- `readWinners` (`indexedDb.ts` lines 53-61), success path: `getAll()`
over the `winners` store returns the current snapshot. -/
def readWinners (st : Store) : List Winner :=
  st.winners

/-- `readLastSavedAt` (`indexedDb.ts` lines 63-71), success path: `get`
of the `lastSavedAt` key on the `meta` store. -/
def readLastSavedAt (st : Store) : Option String :=
  (st.meta.find? (fun p => p.1 = "lastSavedAt")).map (fun p => p.2)

/-- `clearDatabase` (`indexedDb.ts` lines 73-80): clears both stores. -/
def clearDatabase (_ : Store) : Store :=
  { winners := [], meta := [] }

/-- Environment outcome of one `readWinners` call, covering every settling
path of the promise chain `openDatabase` → `withStore` → inner `getAll`
promise (`indexedDb.ts` lines 8-24, 27-41, 53-61):
`success` — the database opens, `getAll` delivers `request.result`, the
transaction completes; `successNull` — as `success` but `request.result`
is null; `openFailure` — `indexedDB.open` errs, so `openDatabase` rejects
(line 23); `getAllFailure` — the `getAll` request errs, which aborts the
transaction, so `transaction.oncomplete` never fires and
`transaction.onerror` rejects (line 39). -/
inductive ReadOutcome where
  | success : ReadOutcome
  | successNull : ReadOutcome
  | openFailure : ReadOutcome
  | getAllFailure : ReadOutcome
deriving DecidableEq, Repr

/-- The rejection values the `readWinners` promise chain can settle with:
`openError` is `request.error` from `indexedDB.open` rethrown by
`await openDatabase()` inside `withStore`; `transactionError` is
`transaction.error` passed to `reject` by `transaction.onerror`. -/
inductive DbError where
  | openError : DbError
  | transactionError : DbError
deriving DecidableEq, Repr

/-- The settled state of the promise returned by `readWinners`
(`indexedDb.ts` lines 53-61) against store state `st`.  On `success` the
transaction completes, `withStore` resolves with the inner promise, and
its value `request.result ?? []` is `st.winners`; on `successNull` the
`?? []` fallback yields `[]`.  On `openFailure` the rejection of
`openDatabase` is rethrown by the `await` in `withStore` (line 32) and
propagates out of `readWinners` uncaught.  On `getAllFailure` the inner
handler `request.onerror = () => resolve([])` (line 58) does resolve the
inner promise, but `withStore` only adopts that inner promise when
`transaction.oncomplete` fires (line 38); the failed request aborts the
transaction, so `oncomplete` never fires, `transaction.onerror` rejects
(line 39), and `readWinners` rejects — the `[]`-on-error handler is
dead. -/
def readWinnersResult (st : Store) : ReadOutcome → Except DbError (List Winner)
  | ReadOutcome.success => Except.ok st.winners
  | ReadOutcome.successNull => Except.ok []
  | ReadOutcome.openFailure => Except.error DbError.openError
  | ReadOutcome.getAllFailure => Except.error DbError.transactionError

/-- One winner record as built inside `presortWinners`: the derived id is
`gift.id + '-' + participant.id`. -/
def mkWinner (gift : Gift) (participant : Participant) : Winner :=
  { id := gift.id ++ "-" ++ participant.id, participant := participant, gift := gift }

/-- `presortWinners` (`indexedDb.ts` lines 168-181) after the two
comparator shuffles: `total = min` of the lengths, slice both shuffled
lists to `total`, and pair by parallel index.  The shuffled lists are
passed in explicitly; theorems constrain them to be permutations of the
inputs. -/
def presortCore (shuffledParticipants : List Participant) (shuffledGifts : List Gift) :
    List Winner :=
  let total := min shuffledParticipants.length shuffledGifts.length
  let selectedParticipants := shuffledParticipants.take total
  let selectedGifts := shuffledGifts.take total
  List.zipWith mkWinner selectedGifts selectedParticipants

/-- `hasExactHeaders` (`AdminPage.tsx` lines 231-234): true when the
header row has the same length as the expected row and matches it
position by position. -/
def hasExactHeaders (headers expected : List String) : Bool :=
  if headers.length ≠ expected.length then false
  else (List.range expected.length).all (fun i => headers.getD i "" = expected.getD i "")

/-- Result type of the gifts parser used by the current `AdminPage.tsx`
(`ParsedGiftsResult`): surviving gifts plus the count of discarded rows. -/
structure ParsedGiftsResult where
  gifts : List Gift
  discardedRows : Nat
deriving DecidableEq, Repr

/-- How `handleGiftsUpload` surfaces a parse result to the user. -/
inductive UploadOutcome where
  | hardError : String → UploadOutcome
  | warn : String → UploadOutcome
  | success : UploadOutcome
deriving DecidableEq, Repr

/-- The decision logic of `handleGiftsUpload` (`AdminPage.tsx` lines
338-349) on a successfully parsed result: zero surviving gifts is a hard
error, a positive discarded count is a warning (upload proceeds),
otherwise plain success. -/
def giftsUploadOutcome (parsed : ParsedGiftsResult) : UploadOutcome :=
  if parsed.gifts.length = 0 then
    UploadOutcome.hardError "CSV inválido: no tiene premios válidos."
  else if parsed.discardedRows > 0 then
    UploadOutcome.warn
      ("Se descartaron " ++ toString parsed.discardedRows ++ " filas por campos vacíos.")
  else UploadOutcome.success

/-- The whitespace class of JS `String.prototype.trim` (ASCII part). -/
def isJsWhitespace (c : Char) : Bool :=
  c = ' ' || c = '\t' || c = '\n' || c = '\r' || c = '\x0b' || c = '\x0c'

/-- JS `trim`: drop leading and trailing whitespace. -/
def jsTrimChars (cs : List Char) : List Char :=
  ((cs.dropWhile isJsWhitespace).reverse.dropWhile isJsWhitespace).reverse

/-- JS `trim` on strings. -/
def trimStr (s : String) : String :=
  String.mk (jsTrimChars s.data)

/-- JS `toLowerCase` (character-wise model). -/
def toLowerStr (s : String) : String :=
  String.mk (s.data.map Char.toLower)

/-- `split(sep)` for a single-character separator, accumulator form. -/
def splitOnCharAux (sep : Char) : List Char → List Char → List (List Char)
  | [], cur => [cur.reverse]
  | c :: rest, cur =>
    if c = sep then cur.reverse :: splitOnCharAux sep rest []
    else splitOnCharAux sep rest (c :: cur)

/-- JS `String.prototype.split` with a one-character separator. -/
def splitOnChar (sep : Char) (cs : List Char) : List (List Char) :=
  splitOnCharAux sep cs []

/-- JS `Array.prototype.join(sep)`. -/
def joinStr (sep : String) : List String → String
  | [] => ""
  | [a] => a
  | a :: b :: rest => a ++ sep ++ joinStr sep (b :: rest)

/-- `text.split(/\r?\n/).map(l => l.trim()).filter(Boolean)`: split on
newlines, trim (which also removes a trailing `\r`), drop blank lines. -/
def nonBlankLines (text : String) : List String :=
  ((splitOnChar '\n' text.data).map (fun cs => String.mk (jsTrimChars cs))).filter
    (fun l => l ≠ "")

/-- `raw.replace(/[^0-9.-]+/g, '')`: keep only digits, `.` and `-`. -/
def stripNonNumeric (s : String) : String :=
  String.mk (s.data.filter (fun c => c.isDigit || c = '.' || c = '-'))

/-- Whether every character of the string is a decimal digit. -/
def allDigits (cs : List Char) : Bool :=
  cs.all Char.isDigit

/-- Decimal digits of a string known to consist of digits. -/
def digitsToNat (cs : List Char) : Nat :=
  cs.foldl (fun acc c => acc * 10 + (c.toNat - 48)) 0

/-- JS `Number(clean)` on a string made only of digits, `.` and `-` (the
character class left by `stripNonNumeric`): `some q` for a finite value,
`none` for `NaN`.  `Number('') = 0`; an optional leading `-`; at most one
`.`; at least one digit; anything else is `NaN`. -/
def jsNumber (s : String) : Option Rat :=
  if s = "" then some 0
  else
    let (neg, body) :=
      match s.data with
      | '-' :: rest => (true, rest)
      | cs => (false, cs)
    match splitOnChar '.' body with
    | [a] =>
        if allDigits a && a ≠ [] then
          let v : Rat := (digitsToNat a : Rat)
          some (if neg then -v else v)
        else none
    | [a, b] =>
        if allDigits a && allDigits b && (a ≠ [] || b ≠ []) then
          let v : Rat := (digitsToNat a : Rat) +
            (digitsToNat b : Rat) / ((10 : Rat) ^ b.length)
          some (if neg then -v else v)
        else none
    | _ => none

/-- Strict decimal integer parse (optional leading `-`, digits only),
used for the `uds` (units) field of the spec-modelled Row Sanitizer. -/
def parseIntStr (s : String) : Option Int :=
  match s.data with
  | '-' :: rest =>
      if allDigits rest && rest ≠ [] then some (-(digitsToNat rest : Int)) else none
  | cs => if allDigits cs && cs ≠ [] then some ((digitsToNat cs : Int)) else none

/-- Last-wins association lookup built by
`headers.forEach((header, idx) => row[header] = values[idx] ?? '')`
followed by `row[key] ?? ''`. -/
def rowLookup (headers values : List String) (key : String) : String :=
  match (headers.enum.map (fun p => (p.2, values.getD p.1 ""))).reverse.find?
      (fun p => p.1 = key) with
  | some p => p.2
  | none => ""

/-- `parseGiftsCsv` as present in `src/utils/indexedDb.ts` lines 134-166:
lower-cased trimmed headers from the first non-blank line, then one `Gift`
per remaining non-blank line, with `cost` cleaned via `stripNonNumeric`
and mapped through `Number` (empty clean string means `undefined`), and
derived id `` `${index}-${category}-${prize}` ``. -/
def parseGiftsCsvSrc (csvText : String) : List Gift :=
  let lines := nonBlankLines csvText
  if lines.length = 0 then []
  else
    let headers := (splitOnChar ',' (lines.headD "").data).map
      (fun h => toLowerStr (String.mk (jsTrimChars h)))
    let dataLines := lines.drop 1
    dataLines.enum.map (fun p =>
      let values := (splitOnChar ',' p.2.data).map (fun v => String.mk (jsTrimChars v))
      let look := rowLookup headers values
      let clean := stripNonNumeric (look "costo")
      let cost :=
        if clean = "" then JsCost.undef
        else
          match jsNumber clean with
          | some q => JsCost.num q
          | none => JsCost.nan
      let category := look "categoria"
      let prize := look "producto"
      let unit := look "unidad"
      { id := toString p.1 ++ "-" ++ category ++ "-" ++ prize,
        category := category, prize := prize, unit := unit, cost := cost })

/-- Modelled from the spec: character scanner of the CSV Tokenizer
(spec 4.1), whose implementation (the `indexedDb.ts` revision exporting
`ParsedGiftsResult`, imported by the current `AdminPage.tsx`) is not in
the source tree.  Fields are comma-separated; a `"` toggles an
inside-quotes mode during which commas are literal content; the quote
characters themselves are not part of the field. -/
def splitQuotedAux : List Char → Bool → List Char → List (List Char)
  | [], _, cur => [cur.reverse]
  | c :: rest, inside, cur =>
    if c = '"' then splitQuotedAux rest (!inside) cur
    else if c = ',' && !inside then cur.reverse :: splitQuotedAux rest inside []
    else splitQuotedAux rest inside (c :: cur)

/-- Modelled from the spec: tokenize one CSV line into trimmed fields
(spec 4.1). -/
def splitLineQuoted (line : String) : List String :=
  (splitQuotedAux line.data false []).map (fun cs => String.mk (jsTrimChars cs))

/-- Modelled from the spec: if a tokenized row has more fields than the
header row, the tail fields beyond `headers.length - 1` are rejoined with
`,` into the final field (spec 4.1). -/
def normalizeRow (headerCount : Nat) (fields : List String) : List String :=
  if fields.length > headerCount then
    fields.take (headerCount - 1) ++
      [joinStr "," (fields.drop (headerCount - 1))]
  else fields

/-- Headers of the first non-blank line, tokenized and lower-cased. -/
def headersOf (text : String) : List String :=
  (splitLineQuoted ((nonBlankLines text).headD "")).map toLowerStr

/-- Modelled from the spec: the tokenized and column-count-normalized data
rows of a gifts CSV (spec 4.1). -/
def giftRowsOf (text : String) : List (List String) :=
  ((nonBlankLines text).drop 1).map
    (fun l => normalizeRow (headersOf text).length (splitLineQuoted l))

/-- `category` field of a normalized gifts row (position 0 of the
validated `categoria,producto,uds,costo` template). -/
def rowCategory (r : List String) : String := r.getD 0 ""

/-- `prize` field (position 1, `producto`). -/
def rowPrize (r : List String) : String := r.getD 1 ""

/-- `unitsRaw` field (position 2, `uds`). -/
def rowUds (r : List String) : String := r.getD 2 ""

/-- `costRaw` field (position 3, `costo`). -/
def rowCost (r : List String) : String := r.getD 3 ""

/-- Modelled from the spec: a row is discarded (counted, not erroring)
when any required field is empty after trimming (spec 4.3). -/
def rowDiscarded (r : List String) : Bool :=
  rowCategory r = "" || rowPrize r = "" || rowUds r = "" || rowCost r = ""

/-- Row-numbered type errors of the gifts Row Sanitizer (spec 4.3/7):
non-integer or non-positive `uds`, or non-finite `costo`.  `rowNum` is the
1-based line number in the file (data row index + 2). -/
inductive GiftParseError where
  | invalidUds : Nat → GiftParseError
  | invalidCost : Nat → GiftParseError
deriving DecidableEq, Repr

/-- Modelled from the spec: the Row Sanitizer loop for gifts (spec 4.3),
whose implementation is not in the source tree.  Walks the normalized data
rows; a row with an empty required field is discarded and counted; a
present but malformed `uds` (not an integer `≥ 1`) or `costo` (not finite
after stripping) aborts the whole parse with a row-numbered error;
surviving rows become `Gift`s with derived id
`` `${rowIndex}-${category}-${prize}` ``. -/
def sanitizeGiftRows : List (List String) → Nat → Nat → List Gift →
    Except GiftParseError ParsedGiftsResult
  | [], _, discarded, acc => Except.ok { gifts := acc, discardedRows := discarded }
  | r :: rs, idx, discarded, acc =>
    if rowDiscarded r then sanitizeGiftRows rs (idx + 1) (discarded + 1) acc
    else
      match parseIntStr (rowUds r) with
      | none => Except.error (GiftParseError.invalidUds (idx + 2))
      | some n =>
        if n < 1 then Except.error (GiftParseError.invalidUds (idx + 2))
        else
          match jsNumber (stripNonNumeric (rowCost r)) with
          | none => Except.error (GiftParseError.invalidCost (idx + 2))
          | some q =>
            sanitizeGiftRows rs (idx + 1) discarded
              (acc ++ [{ id := toString idx ++ "-" ++ rowCategory r ++ "-" ++ rowPrize r,
                         category := rowCategory r, prize := rowPrize r,
                         unit := rowUds r, cost := JsCost.num q }])

/-- Modelled from the spec: the gifts parser returning `ParsedGiftsResult`
(the `parseGiftsCsv` revision imported by the current `AdminPage.tsx`,
absent from the source tree): tokenize, normalize and sanitize the data
rows. -/
def parseGiftsCsvFull (text : String) : Except GiftParseError ParsedGiftsResult :=
  sanitizeGiftRows (giftRowsOf text) 0 0 []

/-- Decimal digit character for `k < 10` (and `'9'` above). -/
def digitChar (k : Nat) : Char :=
  if k = 0 then '0' else if k = 1 then '1' else if k = 2 then '2'
  else if k = 3 then '3' else if k = 4 then '4' else if k = 5 then '5'
  else if k = 6 then '6' else if k = 7 then '7' else if k = 8 then '8' else '9'

/-- Lower-case hex digit character for `k < 16` (and `'f'` above). -/
def hexChar (k : Nat) : Char :=
  if k < 10 then digitChar k
  else if k = 10 then 'a' else if k = 11 then 'b' else if k = 12 then 'c'
  else if k = 13 then 'd' else if k = 14 then 'e' else 'f'

/-- Fuel-driven decimal digit expansion (most significant first). -/
def natToCharsAux : Nat → Nat → List Char
  | 0, _ => []
  | fuel + 1, n => if n = 0 then [] else natToCharsAux fuel (n / 10) ++ [digitChar (n % 10)]

/-- Decimal representation of a natural number. -/
def natToChars (n : Nat) : List Char :=
  if n = 0 then ['0'] else natToCharsAux (n + 1) n

/-- Drop trailing `'0'` characters. -/
def trimTrailingZeros (cs : List Char) : List Char :=
  ((cs.reverse).dropWhile (fun c => c = '0')).reverse

/-- Decimal digits of the fractional part `m / d` (`m < d`), truncated at
20 places and with trailing zeros removed; the layer standing in for JS
float-to-string conversion. -/
def fracChars (m d : Nat) : List Char :=
  if d = 0 then []
  else
    let raw := natToChars (m * 10 ^ 20 / d)
    let padded := List.replicate (20 - raw.length) '0' ++ raw
    trimTrailingZeros padded

/-- Serialization of a JS number (modelled as `Rat`): optional `-`, the
integer part, and a `.`-prefixed fractional part when nonzero. -/
def ratToJs (q : Rat) : String :=
  let n := q.num.natAbs
  let intPart := natToChars (n / q.den)
  let frac := fracChars (n % q.den) q.den
  let body := intPart ++ (if frac = [] then [] else '.' :: frac)
  String.mk (if q.num < 0 then '-' :: body else body)

/-- One character of `JSON.stringify` string escaping: `\"`, `\\`, the
named control escapes, `\u00xx` for other control characters, and the
character itself otherwise. -/
def jsonEscapeChar (c : Char) : List Char :=
  if c = '"' then ['\\', '"']
  else if c = '\\' then ['\\', '\\']
  else if c = '\n' then ['\\', 'n']
  else if c = '\r' then ['\\', 'r']
  else if c = '\t' then ['\\', 't']
  else if c = '\x08' then ['\\', 'b']
  else if c = '\x0c' then ['\\', 'f']
  else if c.toNat < 32 then
    ['\\', 'u', '0', '0', hexChar (c.toNat / 16), hexChar (c.toNat % 16)]
  else [c]

/-- Escaped character stream of a string. -/
def jsonEscapeList (cs : List Char) : List Char :=
  cs.foldr (fun c acc => jsonEscapeChar c ++ acc) []

/-- `JSON.stringify` of a string value: escaped content between quotes. -/
def jsonQuote (s : String) : String :=
  String.mk ('"' :: jsonEscapeList s.data ++ ['"'])

/-- `JSON.stringify(winner.gift.cost ?? '')`: an undefined cost falls back
to the quoted empty string, `NaN` stringifies to `null`, and a finite
number to its bare (unquoted) decimal form. -/
def serializeCost : JsCost → String
  | JsCost.undef => jsonQuote ""
  | JsCost.nan => "null"
  | JsCost.num q => ratToJs q

/-- The six serialized cells of one winner row (`indexedDb.ts` lines
90-97): every participant/gift string field is JSON-string-quoted with
`?? ''` fallbacks, the cost via `serializeCost`. -/
def winnerCells (w : Winner) : List String :=
  [jsonQuote w.participant.name,
   jsonQuote (w.participant.employeeNumber.getD ""),
   jsonQuote (w.participant.email.getD ""),
   jsonQuote w.gift.prize,
   jsonQuote w.gift.category,
   serializeCost w.gift.cost]

/-- One output row of the export formatter: the cells joined with `,`. -/
def winnerRowLine (w : Winner) : String :=
  joinStr "," (winnerCells w)

/-- The header line of the winners CSV export. -/
def winnersCsvHeader : String :=
  "name,employeeNumber,email,prize,category,cost"

/-- `winnersToCSV` (`indexedDb.ts` lines 87-100): header line followed by
one row per winner, joined with `\n`. -/
def winnersToCSV (winners : List Winner) : String :=
  joinStr "\n" (winnersCsvHeader :: winners.map winnerRowLine)

/-- Value of a lower-case hex digit character (0 for others). -/
def hexVal (c : Char) : Nat :=
  if c.isDigit then c.toNat - 48
  else if c = 'a' then 10 else if c = 'b' then 11 else if c = 'c' then 12
  else if c = 'd' then 13 else if c = 'e' then 14 else if c = 'f' then 15
  else 0

/-- Inverse of `jsonEscapeList`: decode a JSON-escaped character stream. -/
def jsonUnescapeAux (cs : List Char) : List Char :=
  match cs with
  | [] => []
  | [c] => if c = '\\' then [] else [c]
  | c :: e :: rest2 =>
    if c = '\\' then
      if e = 'u' then
        Char.ofNat (hexVal (rest2.getD 0 '0') * 4096 + hexVal (rest2.getD 1 '0') * 256 +
            hexVal (rest2.getD 2 '0') * 16 + hexVal (rest2.getD 3 '0')) ::
          jsonUnescapeAux (rest2.drop 4)
      else if e = 'n' then '\n' :: jsonUnescapeAux rest2
      else if e = 'r' then '\r' :: jsonUnescapeAux rest2
      else if e = 't' then '\t' :: jsonUnescapeAux rest2
      else if e = 'b' then '\x08' :: jsonUnescapeAux rest2
      else if e = 'f' then '\x0c' :: jsonUnescapeAux rest2
      else e :: jsonUnescapeAux rest2
    else c :: jsonUnescapeAux (e :: rest2)
termination_by cs.length
decreasing_by
  all_goals simp [List.length_drop]
  all_goals omega

/-- Decode a serialized JSON string literal: strip the surrounding quotes
and unescape the content. -/
def jsonUnquote (piece : String) : String :=
  String.mk (jsonUnescapeAux ((piece.data.drop 1).dropLast))

/-- Decode one re-split cell: a piece starting with `"` is a JSON string
literal, anything else is taken verbatim. -/
def decodeCell (piece : String) : String :=
  match piece.data with
  | '"' :: _ => jsonUnquote piece
  | _ => piece

/-- Scanner that re-splits a CSV line on commas while respecting JSON
string quoting (quotes open a string, backslash escapes the next
character inside it). -/
def splitJsonAux : List Char → Bool → Bool → List Char → List (List Char)
  | [], _, _, cur => [cur.reverse]
  | c :: rest, true, true, cur => splitJsonAux rest true false (c :: cur)
  | c :: rest, true, false, cur =>
    if c = '\\' then splitJsonAux rest true true (c :: cur)
    else if c = '"' then splitJsonAux rest false false (c :: cur)
    else splitJsonAux rest true false (c :: cur)
  | c :: rest, false, _, cur =>
    if c = ',' then cur.reverse :: splitJsonAux rest false false []
    else if c = '"' then splitJsonAux rest true false (c :: cur)
    else splitJsonAux rest false false (c :: cur)

/-- Re-split a line on commas outside JSON string literals. -/
def splitRespectingJson (line : String) : List String :=
  (splitJsonAux line.data false false []).map String.mk

/-- A sample participant used by witness instantiations. -/
def pA : Participant := ⟨"0-Ana", "Ana", some "E1", some "ana@corp.mx"⟩

/-- A second sample participant. -/
def pB : Participant := ⟨"1-Luis", "Luis", none, none⟩

/-- A sample gift. -/
def gA : Gift := ⟨"0-Elec-Audifonos", "Elec", "Audifonos", "1", JsCost.num 500⟩

/-- A second sample gift. -/
def gB : Gift := ⟨"1-Hogar-Licuadora", "Hogar", "Licuadora", "2", JsCost.undef⟩

/-- A sample winner pairing `pA` with `gA`. -/
def wA : Winner := ⟨"0-Elec-Audifonos-0-Ana", pA, gA⟩

/-- A second sample winner pairing `pB` with `gB`. -/
def wB : Winner := ⟨"1-Hogar-Licuadora-1-Luis", pB, gB⟩

lemma putById_not_mem (ws : List Winner) (w : Winner) (h : w.id ∉ ws.map Winner.id) :
    putById ws w = ws ++ [w] := by
  induction ws with
  | nil => rfl
  | cons x t ih =>
    simp only [List.map_cons, List.mem_cons] at h
    push_neg at h
    have hx : ¬ x.id = w.id := fun hh => h.1 hh.symm
    simp [putById, hx, ih h.2]

lemma foldl_putById_nodup :
    ∀ (ws acc : List Winner), ((acc ++ ws).map Winner.id).Nodup →
      ws.foldl putById acc = acc ++ ws := by
  intro ws
  induction ws with
  | nil => intro acc _; simp
  | cons w t ih =>
    intro acc h
    have hmap : (acc.map Winner.id ++ w.id :: t.map Winner.id).Nodup := by simpa using h
    have hw : w.id ∉ acc.map Winner.id := by
      have hd := (List.nodup_append.mp hmap).2.2
      intro hmem
      exact hd hmem (List.mem_cons_self _ _)
    have h2 : (((acc ++ [w]) ++ t).map Winner.id).Nodup := by
      simpa [List.append_assoc] using h
    have step : (w :: t).foldl putById acc = t.foldl putById (acc ++ [w]) := by
      rw [List.foldl_cons, putById_not_mem _ _ hw]
    rw [step, ih (acc ++ [w]) h2, List.append_assoc, List.singleton_append]

lemma find?_metaPut (m : List (String × String)) (k v : String) :
    (metaPut m k v).find? (fun p => p.1 = k) = some (k, v) := by
  induction m with
  | nil => simp [metaPut, List.find?]
  | cons p t ih =>
    by_cases hp : p.1 = k
    · simp [metaPut, hp, List.find?]
    · rw [metaPut, if_neg hp, List.find?_cons_of_neg _ (by simpa using hp)]
      exact ih

/-- Claim C1: for every prior store state and every winner list with
pairwise-distinct ids, `save(winners)` then `readAll()` returns exactly
the saved winners (as a list equality, hence as a same-ids-any-order
permutation) with no leftover entries; `save` then `clear()` then
`readAll()` returns `[]`; and `save` writes the `meta.lastSavedAt` key. -/
theorem saveWinners_roundtrip (st : Store) (ws : List Winner) (now : String)
    (h : (ws.map Winner.id).Nodup) :
    readWinners (saveWinners st ws now) = ws ∧
    List.Perm (readWinners (saveWinners st ws now)) ws ∧
    readWinners (clearDatabase (saveWinners st ws now)) = [] ∧
    readLastSavedAt (saveWinners st ws now) = some now := by
  have key : ws.foldl putById [] = ws := by
    simpa using foldl_putById_nodup ws [] (by simpa using h)
  refine ⟨?_, ?_, rfl, ?_⟩
  · simp [readWinners, saveWinners, key]
  · simp only [readWinners, saveWinners, key]
    exact List.Perm.refl ws
  · simp [readLastSavedAt, saveWinners, find?_metaPut]

/-- Witness for C1: a concrete save over a dirty store. -/
theorem saveWinners_roundtrip_witness :
    ([wA, wB].map Winner.id).Nodup ∧
    readWinners (saveWinners ⟨[wB], [("lastSavedAt", "old")]⟩ [wA, wB] "2026-02-03") =
      [wA, wB] := by
  refine ⟨by decide, ?_⟩
  exact (saveWinners_roundtrip ⟨[wB], [("lastSavedAt", "old")]⟩ [wA, wB] "2026-02-03"
    (by decide)).1

/-- Counterexample to C7: at a concrete nonempty store, a failing
`getAll` read makes `readWinners` settle on a rejection, not on `[]` —
and an unreadable database (open failure) likewise rejects — so the read
path does propagate read failures instead of swallowing them. -/
theorem readWinners_propagates_failure :
    readWinnersResult ⟨[wA], []⟩ ReadOutcome.getAllFailure =
      Except.error DbError.transactionError ∧
    readWinnersResult ⟨[wA], []⟩ ReadOutcome.openFailure =
      Except.error DbError.openError :=
  ⟨rfl, rfl⟩

/-- Amended C7: on the success paths `readWinners` returns the snapshot
and maps a null `getAll` result to `[]`; but an `indexedDB.open` failure
rejects through `withStore`'s `await`, and a failing `getAll` request
aborts the transaction so that `transaction.onerror` rejects while the
inner `[]`-on-error handler is never adopted — read failures propagate
to the caller (`AdminPage.tsx` wraps the call in try/catch and shows an
error message). -/
theorem readWinners_outcomes (st : Store) :
    readWinnersResult st ReadOutcome.success = Except.ok st.winners ∧
    readWinnersResult st ReadOutcome.successNull = Except.ok [] ∧
    readWinnersResult st ReadOutcome.openFailure =
      Except.error DbError.openError ∧
    readWinnersResult st ReadOutcome.getAllFailure =
      Except.error DbError.transactionError :=
  ⟨rfl, rfl, rfl, rfl⟩

/-- Counterexample to C5: the schema validator is a single `Bool`; on the
claim's own scenario (a header row simultaneously missing `costo` and
carrying an extra header) it returns the bare value `false`, the very same
output as for an unrelated failure, so no result enumerating the failing
checks is reported. -/
theorem hasExactHeaders_single_bool :
    hasExactHeaders ["categoria", "producto", "uds", "extra"]
        ["categoria", "producto", "uds", "costo"] = false ∧
    hasExactHeaders ["name"] ["categoria", "producto", "uds", "costo"] = false ∧
    hasExactHeaders ["categoria", "producto", "uds", "extra"]
        ["categoria", "producto", "uds", "costo"] =
      hasExactHeaders ["name"] ["categoria", "producto", "uds", "costo"] := by
  decide

/-- Amended C5: the validator runs length, content and order checks only
to the extent of deciding one boolean — it accepts exactly the expected
header row (same length, same headers, same order) and collapses every
failure mode to the same `false`. -/
theorem hasExactHeaders_iff_eq (headers expected : List String) :
    hasExactHeaders headers expected = true ↔ headers = expected := by
  unfold hasExactHeaders
  by_cases hl : headers.length = expected.length
  · rw [if_neg (by simpa using hl)]
    constructor
    · intro hall
      apply List.ext_getElem hl
      intro i h1 h2
      have hi := List.all_eq_true.mp hall i (List.mem_range.mpr h2)
      have hgd : headers.getD i "" = expected.getD i "" := by simpa using hi
      rwa [List.getD_eq_getElem _ _ h1, List.getD_eq_getElem _ _ h2] at hgd
    · rintro rfl
      simp
  · rw [if_pos (by simpa using hl)]
    constructor
    · intro hfalse
      exact absurd hfalse (by simp)
    · intro he
      exact absurd (congrArg List.length he) hl

lemma map_participant_zipWith :
    ∀ (gs : List Gift) (ps : List Participant),
      (List.zipWith mkWinner gs ps).map Winner.participant = ps.take gs.length := by
  intro gs
  induction gs with
  | nil => intro ps; simp
  | cons g gs ih =>
    intro ps
    cases ps with
    | nil => simp
    | cons p ps => simp [mkWinner, ih]

lemma map_gift_zipWith :
    ∀ (gs : List Gift) (ps : List Participant),
      (List.zipWith mkWinner gs ps).map Winner.gift = gs.take ps.length := by
  intro gs
  induction gs with
  | nil => intro ps; simp
  | cons g gs ih =>
    intro ps
    cases ps with
    | nil => simp
    | cons p ps => simp [mkWinner, ih]

lemma presortCore_map_participant (sp : List Participant) (sg : List Gift) :
    (presortCore sp sg).map Winner.participant =
      sp.take (min sp.length sg.length) := by
  show (List.zipWith mkWinner (sg.take (min sp.length sg.length))
      (sp.take (min sp.length sg.length))).map Winner.participant = _
  rw [map_participant_zipWith, List.length_take, List.take_take]
  congr 1
  omega

lemma presortCore_map_gift (sp : List Participant) (sg : List Gift) :
    (presortCore sp sg).map Winner.gift = sg.take (min sp.length sg.length) := by
  show (List.zipWith mkWinner (sg.take (min sp.length sg.length))
      (sp.take (min sp.length sg.length))).map Winner.gift = _
  rw [map_gift_zipWith, List.length_take, List.take_take]
  congr 1
  omega

lemma presortCore_length (sp : List Participant) (sg : List Gift) :
    (presortCore sp sg).length = min sp.length sg.length := by
  have h := congrArg List.length (presortCore_map_participant sp sg)
  rw [List.length_map, List.length_take] at h
  rw [h]
  omega

/-- Claim C2: on shuffled lists that are permutations of the inputs, the
assignment engine returns exactly `min(P, G)` winners, pairs by parallel
index over the two shuffled lists (the winner projections are exactly the
`total`-prefixes of the shuffles), and for duplicate-free inputs the
winners' participants and gifts are each pairwise distinct; surplus
entries are simply truncated away. -/
theorem presort_cardinality_distinct (ps : List Participant) (gs : List Gift)
    (sp : List Participant) (sg : List Gift)
    (hp : List.Perm sp ps) (hg : List.Perm sg gs) :
    (presortCore sp sg).length = min ps.length gs.length ∧
    (presortCore sp sg).map Winner.participant =
      sp.take (min ps.length gs.length) ∧
    (presortCore sp sg).map Winner.gift = sg.take (min ps.length gs.length) ∧
    (ps.Nodup → ((presortCore sp sg).map Winner.participant).Nodup) ∧
    (gs.Nodup → ((presortCore sp sg).map Winner.gift).Nodup) := by
  have hpl : sp.length = ps.length := hp.length_eq
  have hgl : sg.length = gs.length := hg.length_eq
  refine ⟨?_, ?_, ?_, ?_, ?_⟩
  · rw [presortCore_length, hpl, hgl]
  · rw [presortCore_map_participant, hpl, hgl]
  · rw [presortCore_map_gift, hpl, hgl]
  · intro hnd
    rw [presortCore_map_participant]
    exact (List.take_sublist _ _).nodup (hp.nodup_iff.mpr hnd)
  · intro hnd
    rw [presortCore_map_gift]
    exact (List.take_sublist _ _).nodup (hg.nodup_iff.mpr hnd)

/-- Witness for C2: two participants, one gift, a nontrivial shuffle. -/
theorem presort_cardinality_distinct_witness :
    List.Perm [pB, pA] [pA, pB] ∧
    (presortCore [pB, pA] [gA]).length =
      min ([pA, pB].length) ([gA].length) := by
  refine ⟨by decide, ?_⟩
  exact (presort_cardinality_distinct [pA, pB] [gA] [pB, pA] [gA]
    (by decide) (by decide)).1

/-- The dash-prefix of a winner id (everything before the first `-`). -/
def extractGiftId (s : String) : String :=
  String.mk (s.data.takeWhile (fun c => c != '-'))

lemma takeWhile_dashfree (a : List Char) (b : List Char) (h : ∀ c ∈ a, c ≠ '-') :
    (a ++ '-' :: b).takeWhile (fun c => c != '-') = a := by
  induction a with
  | nil => simp
  | cons c t ih =>
    have hc : (c != '-') = true := by
      simpa using h c (List.mem_cons_self _ _)
    simp only [List.cons_append, List.takeWhile_cons, hc]
    rw [ih (fun x hx => h x (List.mem_cons_of_mem _ hx))]
    simp

lemma extractGiftId_concat (g p : String) (h : ∀ c ∈ g.data, c ≠ '-') :
    extractGiftId (g ++ "-" ++ p) = g := by
  unfold extractGiftId
  have hdata : (g ++ "-" ++ p).data = g.data ++ '-' :: p.data := by
    simp [String.data_append]
  rw [hdata, takeWhile_dashfree _ _ h]

lemma mem_zipWith_mkWinner :
    ∀ (gs : List Gift) (ps : List Participant) (w : Winner),
      w ∈ List.zipWith mkWinner gs ps → ∃ g p, g ∈ gs ∧ p ∈ ps ∧ w = mkWinner g p := by
  intro gs
  induction gs with
  | nil => intro ps w hw; simp at hw
  | cons g gs ih =>
    intro ps w hw
    cases ps with
    | nil => simp at hw
    | cons p ps =>
      rcases List.mem_cons.mp hw with h | h
      · exact ⟨g, p, List.mem_cons_self _ _, List.mem_cons_self _ _, h⟩
      · rcases ih ps w h with ⟨g', p', hg', hp', he⟩
        exact ⟨g', p', List.mem_cons_of_mem _ hg', List.mem_cons_of_mem _ hp', he⟩

lemma presortCore_id_eq (sp : List Participant) (sg : List Gift) :
    ∀ w ∈ presortCore sp sg, w.id = w.gift.id ++ "-" ++ w.participant.id := by
  intro w hw
  rcases mem_zipWith_mkWinner _ _ w hw with ⟨g, p, _, _, rfl⟩
  rfl

lemma presortCore_gift_mem (sp : List Participant) (sg : List Gift) :
    ∀ w ∈ presortCore sp sg, w.gift ∈ sg := by
  intro w hw
  rcases mem_zipWith_mkWinner _ _ w hw with ⟨g, p, hg, _, rfl⟩
  exact (List.take_sublist _ _).mem hg

/-- Counterexample to C10: two participants with distinct ids and two
gifts with distinct ids for which the parallel-index pairing (here the
identity shuffle outcome, one possible run) produces two winners whose
concatenated ids collide (`"a" + "-" + "b-c"` and `"a-b" + "-" + "c"` are
both `"a-b-c"`), so the winner ids are not pairwise distinct and the
id-keyed `put` would silently overwrite. -/
theorem presort_winner_ids_collision :
    (([⟨"b-c", "X", none, none⟩, ⟨"c", "Y", none, none⟩] :
        List Participant).map Participant.id).Nodup ∧
    (([⟨"a", "CatA", "PrA", "", JsCost.undef⟩, ⟨"a-b", "CatB", "PrB", "", JsCost.undef⟩] :
        List Gift).map Gift.id).Nodup ∧
    ¬ ((presortCore [⟨"b-c", "X", none, none⟩, ⟨"c", "Y", none, none⟩]
        [⟨"a", "CatA", "PrA", "", JsCost.undef⟩,
         ⟨"a-b", "CatB", "PrB", "", JsCost.undef⟩]).map Winner.id).Nodup := by
  decide

/-- Amended C10: every produced winner id is `gift.id + '-' + participant.id`;
and when the participant ids and the gift ids are each pairwise distinct
*and additionally no gift id contains the separator `'-'`*, the winner ids
are pairwise distinct (without the extra dash-freeness condition the
concatenation can collide, see the counterexample). -/
theorem presort_winner_ids (ps : List Participant) (gs : List Gift)
    (sp : List Participant) (sg : List Gift)
    (_hp : List.Perm sp ps) (hg : List.Perm sg gs)
    (_hpid : (ps.map Participant.id).Nodup) (hgid : (gs.map Gift.id).Nodup)
    (hdash : ∀ g ∈ gs, ∀ c ∈ g.id.data, c ≠ '-') :
    (∀ w ∈ presortCore sp sg, w.id = w.gift.id ++ "-" ++ w.participant.id) ∧
    ((presortCore sp sg).map Winner.id).Nodup := by
  refine ⟨presortCore_id_eq sp sg, ?_⟩
  have hgids : ((presortCore sp sg).map (fun w => w.gift.id)).Nodup := by
    have he : (presortCore sp sg).map (fun w => w.gift.id) =
        ((sg.map Gift.id).take (min sp.length sg.length)) := by
      have h1 := congrArg (List.map Gift.id) (presortCore_map_gift sp sg)
      rw [List.map_map, List.map_take] at h1
      exact h1
    rw [he]
    have hsgid : (sg.map Gift.id).Nodup :=
      ((hg.map Gift.id).nodup_iff).mpr hgid
    exact (List.take_sublist _ _).nodup hsgid
  have hext : ((presortCore sp sg).map Winner.id).map extractGiftId =
      (presortCore sp sg).map (fun w => w.gift.id) := by
    rw [List.map_map]
    apply List.map_congr_left
    intro w hw
    have hid := presortCore_id_eq sp sg w hw
    have hmem : w.gift ∈ gs := hg.mem_iff.mp (presortCore_gift_mem sp sg w hw)
    show extractGiftId w.id = w.gift.id
    rw [hid]
    exact extractGiftId_concat _ _ (hdash _ hmem)
  have : (((presortCore sp sg).map Winner.id).map extractGiftId).Nodup := by
    rw [hext]
    exact hgids
  exact this.of_map

/-- Witness for the amended C10: dash-free gift ids, distinct everything,
a transposition shuffle on the participants. -/
theorem presort_winner_ids_witness :
    (([pA, pB].map Participant.id).Nodup ∧
      (([⟨"gX", "C", "P", "", JsCost.undef⟩, ⟨"gY", "C", "Q", "", JsCost.undef⟩] :
          List Gift).map Gift.id).Nodup) ∧
    ((presortCore [pB, pA]
        [⟨"gX", "C", "P", "", JsCost.undef⟩,
         ⟨"gY", "C", "Q", "", JsCost.undef⟩]).map Winner.id).Nodup := by
  refine ⟨⟨by decide, by decide⟩, ?_⟩
  exact (presort_winner_ids [pA, pB]
    [⟨"gX", "C", "P", "", JsCost.undef⟩, ⟨"gY", "C", "Q", "", JsCost.undef⟩]
    [pB, pA]
    [⟨"gX", "C", "P", "", JsCost.undef⟩, ⟨"gY", "C", "Q", "", JsCost.undef⟩]
    (by decide) (by decide) (by decide) (by decide) (by decide)).2

instance : DecidableEq (Except GiftParseError ParsedGiftsResult) := fun a b =>
  match a, b with
  | Except.ok x, Except.ok y =>
      if h : x = y then Decidable.isTrue (by rw [h])
      else Decidable.isFalse (fun c => h (by injection c))
  | Except.error x, Except.error y =>
      if h : x = y then Decidable.isTrue (by rw [h])
      else Decidable.isFalse (fun c => h (by injection c))
  | Except.ok _, Except.error _ => Decidable.isFalse (fun c => by injection c)
  | Except.error _, Except.ok _ => Decidable.isFalse (fun c => by injection c)

/-- Claim C9: the in-tree `parseGiftsCsv` is total and never rejects a
row: a blank input yields `[]`, and otherwise the output has exactly one
gift per non-blank line after the header line. -/
theorem parseGiftsCsvSrc_total (text : String) :
    (nonBlankLines text = [] → parseGiftsCsvSrc text = []) ∧
    (parseGiftsCsvSrc text).length = (nonBlankLines text).length - 1 := by
  constructor
  · intro h
    simp [parseGiftsCsvSrc, h]
  · by_cases h : (nonBlankLines text).length = 0
    · simp [parseGiftsCsvSrc, h]
    · simp [parseGiftsCsvSrc, h]

/-- Witness for C9: blank input and a two-line file. -/
theorem parseGiftsCsvSrc_total_witness :
    parseGiftsCsvSrc " \n " = [] ∧
    (parseGiftsCsvSrc "categoria,producto,unidad,costo\nElec,Audifonos,2,500").length =
      (nonBlankLines "categoria,producto,unidad,costo\nElec,Audifonos,2,500").length - 1 :=
  ⟨(parseGiftsCsvSrc_total " \n ").1 (by decide),
   (parseGiftsCsvSrc_total "categoria,producto,unidad,costo\nElec,Audifonos,2,500").2⟩

/-- A normalized gifts row whose `uds` field is present but does not parse
to an integer `≥ 1`. -/
def badUds (r : List String) : Bool :=
  match parseIntStr (rowUds r) with
  | none => true
  | some n => decide (n < 1)

lemma sanitize_ok_no_bad :
    ∀ (rows : List (List String)) (idx d : Nat) (acc : List Gift)
      (res : ParsedGiftsResult),
      sanitizeGiftRows rows idx d acc = Except.ok res →
      ∀ r ∈ rows, ¬(rowDiscarded r = false ∧ badUds r = true) := by
  intro rows
  induction rows with
  | nil => intro idx d acc res _ r hr; simp at hr
  | cons r0 rs ih =>
    intro idx d acc res h r hr hbad
    rcases hbad with ⟨hdisc, hbu⟩
    simp only [sanitizeGiftRows] at h
    rcases List.mem_cons.mp hr with rfl | hmem
    · rw [hdisc] at h
      simp only [Bool.false_eq_true, if_false] at h
      unfold badUds at hbu
      cases hud : parseIntStr (rowUds r) with
      | none =>
        rw [hud] at h
        simp at h
      | some n =>
        rw [hud] at hbu
        rw [hud] at h
        dsimp only at h hbu
        have hn : n < 1 := by simpa using hbu
        rw [if_pos hn] at h
        simp at h
    · by_cases hd0 : rowDiscarded r0 = true
      · rw [hd0] at h
        simp only [if_true] at h
        exact ih _ _ _ _ h r hmem ⟨hdisc, hbu⟩
      · have hd0' : rowDiscarded r0 = false := by simpa using hd0
        rw [hd0'] at h
        simp only [Bool.false_eq_true, if_false] at h
        cases hud0 : parseIntStr (rowUds r0) with
        | none =>
          rw [hud0] at h
          simp at h
        | some n =>
          rw [hud0] at h
          dsimp only at h
          by_cases hn : n < 1
          · rw [if_pos hn] at h
            simp at h
          · rw [if_neg hn] at h
            cases hq : jsNumber (stripNonNumeric (rowCost r0)) with
            | none =>
              rw [hq] at h
              simp at h
            | some q =>
              rw [hq] at h
              dsimp only at h
              exact ih _ _ _ _ h r hmem ⟨hdisc, hbu⟩

/-- Claim C3 (spec-modelled parser): a gifts CSV containing a complete
data row whose `uds` does not parse to an integer `≥ 1` makes the whole
parse fail with a row-numbered type error (`GiftParseError` carries the
row number by construction); no gift list is returned. -/
theorem giftsParse_bad_uds_fails (text : String)
    (h : ∃ r ∈ giftRowsOf text, rowDiscarded r = false ∧ badUds r = true) :
    ∃ e, parseGiftsCsvFull text = Except.error e := by
  rcases h with ⟨r, hr, hprop⟩
  cases hres : parseGiftsCsvFull text with
  | ok res => exact absurd hprop (sanitize_ok_no_bad _ _ _ _ _ hres r hr)
  | error e => exact ⟨e, rfl⟩

/-- Witness for C3: a complete row with `uds = "abc"`. -/
theorem giftsParse_bad_uds_fails_witness :
    (∃ r ∈ giftRowsOf "categoria,producto,uds,costo\nElec,Audifonos,abc,500",
      rowDiscarded r = false ∧ badUds r = true) ∧
    ∃ e, parseGiftsCsvFull "categoria,producto,uds,costo\nElec,Audifonos,abc,500" =
      Except.error e :=
  ⟨by decide,
   giftsParse_bad_uds_fails "categoria,producto,uds,costo\nElec,Audifonos,abc,500"
    (by decide)⟩

lemma sanitize_ok_counts :
    ∀ (rows : List (List String)) (idx d : Nat) (acc : List Gift)
      (res : ParsedGiftsResult),
      sanitizeGiftRows rows idx d acc = Except.ok res →
      res.discardedRows = d + rows.countP rowDiscarded ∧
      res.gifts.length = acc.length + (rows.length - rows.countP rowDiscarded) := by
  intro rows
  induction rows with
  | nil =>
    intro idx d acc res h
    simp only [sanitizeGiftRows, Except.ok.injEq] at h
    subst h
    simp
  | cons r0 rs ih =>
    intro idx d acc res h
    have hle := List.countP_le_length (p := rowDiscarded) (l := rs)
    simp only [sanitizeGiftRows] at h
    by_cases hd0 : rowDiscarded r0 = true
    · rw [hd0] at h
      simp only [if_true] at h
      rcases ih _ _ _ _ h with ⟨h1, h2⟩
      rw [List.countP_cons_of_pos _ _ hd0]
      constructor
      · rw [h1]; omega
      · rw [h2]; simp only [List.length_cons]; omega
    · have hd0' : rowDiscarded r0 = false := by simpa using hd0
      rw [hd0'] at h
      simp only [Bool.false_eq_true, if_false] at h
      rw [List.countP_cons_of_neg _ _ (by simp [hd0'])]
      cases hud0 : parseIntStr (rowUds r0) with
      | none => rw [hud0] at h; simp at h
      | some n =>
        rw [hud0] at h
        dsimp only at h
        by_cases hn : n < 1
        · rw [if_pos hn] at h
          simp at h
        · rw [if_neg hn] at h
          cases hq : jsNumber (stripNonNumeric (rowCost r0)) with
          | none => rw [hq] at h; simp at h
          | some q =>
            rw [hq] at h
            dsimp only at h
            rcases ih _ _ _ _ h with ⟨h1, h2⟩
            constructor
            · exact h1
            · simp only [List.length_append, List.length_cons, List.length_nil] at h2
              simp only [List.length_cons]
              omega

/-- Claim C4 (spec-modelled parser plus in-tree caller): a successful
gifts parse returns `discardedRows` equal to the number of data rows with
an empty required field and exactly one surviving gift per remaining data
row; the caller `handleGiftsUpload` turns zero surviving gifts into a
hard error and a positive discarded count into a warning. -/
theorem giftsParse_discard_counts (text : String) (res : ParsedGiftsResult)
    (h : parseGiftsCsvFull text = Except.ok res) :
    res.discardedRows = (giftRowsOf text).countP rowDiscarded ∧
    res.gifts.length =
      (giftRowsOf text).length - (giftRowsOf text).countP rowDiscarded ∧
    (∀ p : ParsedGiftsResult, p.gifts.length = 0 →
      giftsUploadOutcome p =
        UploadOutcome.hardError "CSV inválido: no tiene premios válidos.") ∧
    (∀ p : ParsedGiftsResult, p.gifts.length ≠ 0 → 0 < p.discardedRows →
      giftsUploadOutcome p = UploadOutcome.warn
        ("Se descartaron " ++ toString p.discardedRows ++ " filas por campos vacíos.")) := by
  rcases sanitize_ok_counts _ _ _ _ _ h with ⟨h1, h2⟩
  refine ⟨by simpa using h1, by simpa using h2, ?_, ?_⟩
  · intro p hp
    simp [giftsUploadOutcome, hp]
  · intro p hp hd
    simp [giftsUploadOutcome, hp, hd]

/-- Witness for C4: one surviving row and one row discarded for an empty
`categoria`. -/
theorem giftsParse_discard_counts_witness :
    parseGiftsCsvFull "categoria,producto,uds,costo\nElec,Audifonos,1,500\n,Tablet,2,300" =
      Except.ok
        { gifts := [{ id := "0-Elec-Audifonos", category := "Elec", prize := "Audifonos",
                      unit := "1", cost := JsCost.num 500 }],
          discardedRows := 1 } ∧
    ({ gifts := [{ id := "0-Elec-Audifonos", category := "Elec", prize := "Audifonos",
                   unit := "1", cost := JsCost.num 500 }],
       discardedRows := 1 } : ParsedGiftsResult).discardedRows =
      (giftRowsOf "categoria,producto,uds,costo\nElec,Audifonos,1,500\n,Tablet,2,300").countP
        rowDiscarded :=
  ⟨by decide,
   (giftsParse_discard_counts
      "categoria,producto,uds,costo\nElec,Audifonos,1,500\n,Tablet,2,300"
      { gifts := [{ id := "0-Elec-Audifonos", category := "Elec", prize := "Audifonos",
                    unit := "1", cost := JsCost.num 500 }],
        discardedRows := 1 }
      (by decide)).1⟩

/-- Theorem-side encoder for the tokenizer round trip: a field containing
a comma is wrapped in quotes, other fields are left bare. -/
def encodeField (f : String) : String :=
  if f.data.contains ',' then "\"" ++ f ++ "\"" else f

lemma sqa_plain (cs : List Char) (h : ∀ c ∈ cs, c ≠ '"' ∧ c ≠ ',') :
    ∀ (rest cur : List Char),
      splitQuotedAux (cs ++ rest) false cur =
        splitQuotedAux rest false (cs.reverse ++ cur) := by
  induction cs with
  | nil => intro rest cur; simp
  | cons c t ih =>
    intro rest cur
    rcases h c (List.mem_cons_self _ _) with ⟨hq, hc⟩
    simp only [List.cons_append, splitQuotedAux, List.append_eq]
    rw [if_neg hq, if_neg (by simp [hc])]
    rw [ih (fun x hx => h x (List.mem_cons_of_mem _ hx)) rest (c :: cur)]
    simp

lemma sqa_quoted (cs : List Char) (h : ∀ c ∈ cs, c ≠ '"') :
    ∀ (rest cur : List Char),
      splitQuotedAux (cs ++ rest) true cur =
        splitQuotedAux rest true (cs.reverse ++ cur) := by
  induction cs with
  | nil => intro rest cur; simp
  | cons c t ih =>
    intro rest cur
    have hq := h c (List.mem_cons_self _ _)
    simp only [List.cons_append, splitQuotedAux, List.append_eq]
    rw [if_neg hq, if_neg (by simp)]
    rw [ih (fun x hx => h x (List.mem_cons_of_mem _ hx)) rest (c :: cur)]
    simp

lemma sqa_field (f : String) (hq : ¬ '"' ∈ f.data) :
    ∀ (rest cur : List Char),
      splitQuotedAux ((encodeField f).data ++ rest) false cur =
        splitQuotedAux rest false (f.data.reverse ++ cur) := by
  intro rest cur
  by_cases hc : ',' ∈ f.data
  · have hdata : (encodeField f).data = '"' :: (f.data ++ ['"']) := by
      simp [encodeField, hc, String.data_append]
    rw [hdata]
    show splitQuotedAux ((f.data ++ ['"']) ++ rest) true cur =
      splitQuotedAux rest false (f.data.reverse ++ cur)
    rw [List.append_assoc]
    rw [sqa_quoted f.data (fun x hx => fun he => hq (he ▸ hx)) _ cur]
    rfl
  · have hdata : (encodeField f).data = f.data := by simp [encodeField, hc]
    rw [hdata]
    exact sqa_plain f.data
      (fun x hx => ⟨fun he => hq (he ▸ hx), fun he => hc (he ▸ hx)⟩) rest cur

lemma sqa_comma (tail cur : List Char) :
    splitQuotedAux (',' :: tail) false cur =
      cur.reverse :: splitQuotedAux tail false [] := by
  simp [splitQuotedAux]

lemma sqa_join :
    ∀ (fs : List String), fs ≠ [] → (∀ f ∈ fs, ¬ '"' ∈ f.data) →
      splitQuotedAux (joinStr "," (fs.map encodeField)).data false [] =
        fs.map String.data := by
  intro fs
  induction fs with
  | nil => intro h; exact absurd rfl h
  | cons f t ih =>
    intro _ h
    cases t with
    | nil =>
      calc splitQuotedAux (joinStr "," ([f].map encodeField)).data false []
          = splitQuotedAux ((encodeField f).data ++ []) false [] := by
            rw [List.append_nil]; rfl
        _ = splitQuotedAux [] false (f.data.reverse ++ []) :=
            sqa_field f (h f (List.mem_cons_self _ _)) [] []
        _ = [f.data] := by simp [splitQuotedAux]
    | cons g t2 =>
      have hdata : (joinStr "," ((f :: g :: t2).map encodeField)).data =
          (encodeField f).data ++
            ',' :: (joinStr "," ((g :: t2).map encodeField)).data := by
        show (encodeField f ++ "," ++
          joinStr "," ((g :: t2).map encodeField)).data = _
        simp [String.data_append]
      rw [hdata, sqa_field f (h f (List.mem_cons_self _ _)), sqa_comma]
      rw [ih (by simp) (fun x hx => h x (List.mem_cons_of_mem _ hx))]
      simp

/-- Claim C6 (spec-modelled tokenizer): (a) quote-toggle round trip — for
any nonempty list of trimmed, quote-free fields, quoting the
comma-containing ones and joining with `,` tokenizes back to exactly
those fields (commas inside quotes are literal content); (b) tail
rejoin — a row longer than the header row is normalized to exactly
`headers.length` fields whose last field is the comma-rejoin of the
tail. -/
theorem csv_tokenizer_quotes_and_tail (fs : List String) (headerCount : Nat)
    (fields : List String) (hne : fs ≠ [])
    (hf : ∀ f ∈ fs, trimStr f = f ∧ ¬ '"' ∈ f.data)
    (hhc : 0 < headerCount) (hlen : fields.length > headerCount) :
    splitLineQuoted (joinStr "," (fs.map encodeField)) = fs ∧
    (normalizeRow headerCount fields).length = headerCount ∧
    (normalizeRow headerCount fields).getLast? =
      some (joinStr "," (fields.drop (headerCount - 1))) := by
  refine ⟨?_, ?_, ?_⟩
  · unfold splitLineQuoted
    rw [sqa_join fs hne (fun f hf2 => (hf f hf2).2), List.map_map]
    calc fs.map ((fun cs => String.mk (jsTrimChars cs)) ∘ String.data)
        = fs.map id := List.map_congr_left (fun a ha => (hf a ha).1)
      _ = fs := List.map_id fs
  · unfold normalizeRow
    rw [if_pos hlen]
    simp only [List.length_append, List.length_take, List.length_cons,
      List.length_nil]
    omega
  · unfold normalizeRow
    rw [if_pos hlen, List.getLast?_concat]

/-- Witness for C6: the spec's `"1,234.56"` example and a five-field row
against the four-column gifts header. -/
theorem csv_tokenizer_quotes_and_tail_witness :
    splitLineQuoted (joinStr "," (["a", "1,234.56", "b"].map encodeField)) =
      ["a", "1,234.56", "b"] ∧
    (normalizeRow 4 ["A", "B", "2", "1", "234.50"]).length = 4 ∧
    (normalizeRow 4 ["A", "B", "2", "1", "234.50"]).getLast? =
      some (joinStr "," (["A", "B", "2", "1", "234.50"].drop 3)) := by
  have h := csv_tokenizer_quotes_and_tail ["a", "1,234.56", "b"] 4
    ["A", "B", "2", "1", "234.50"] (by decide)
    (by decide) (by decide) (by decide)
  exact h

/-- Characters that can appear in a bare (unquoted) number token. -/
def isSafeTokenChar (c : Char) : Bool :=
  c = '0' || c = '1' || c = '2' || c = '3' || c = '4' || c = '5' ||
  c = '6' || c = '7' || c = '8' || c = '9' || c = '-' || c = '.'

lemma digitChar_safe (k : Nat) : isSafeTokenChar (digitChar k) = true := by
  unfold digitChar
  repeat' split
  all_goals decide

lemma natToCharsAux_safe :
    ∀ (fuel n : Nat), ∀ c ∈ natToCharsAux fuel n, isSafeTokenChar c = true := by
  intro fuel
  induction fuel with
  | zero => intro n c hc; simp [natToCharsAux] at hc
  | succ fuel ih =>
    intro n c hc
    by_cases hn : n = 0
    · simp [natToCharsAux, hn] at hc
    · rw [natToCharsAux, if_neg hn] at hc
      rcases List.mem_append.mp hc with h | h
      · exact ih _ c h
      · have : c = digitChar (n % 10) := by simpa using h
        rw [this]
        exact digitChar_safe _
lemma natToChars_safe (n : Nat) : ∀ c ∈ natToChars n, isSafeTokenChar c = true := by
  intro c hc
  unfold natToChars at hc
  by_cases hn : n = 0
  · rw [if_pos hn] at hc
    have : c = '0' := by simpa using hc
    rw [this]; decide
  · rw [if_neg hn] at hc
    exact natToCharsAux_safe _ _ c hc

lemma trimTrailingZeros_subset (cs : List Char) :
    ∀ c ∈ trimTrailingZeros cs, c ∈ cs := by
  intro c hc
  unfold trimTrailingZeros at hc
  rw [List.mem_reverse] at hc
  have := (List.dropWhile_sublist _).subset hc
  exact List.mem_reverse.mp this

lemma fracChars_safe (m d : Nat) : ∀ c ∈ fracChars m d, isSafeTokenChar c = true := by
  intro c hc
  unfold fracChars at hc
  by_cases hd : d = 0
  · simp [hd] at hc
  · rw [if_neg hd] at hc
    have hmem := trimTrailingZeros_subset _ c hc
    rcases List.mem_append.mp hmem with h | h
    · have : c = '0' := by simpa using (List.eq_of_mem_replicate h)
      rw [this]; decide
    · exact natToChars_safe _ c h

lemma ratToJs_safe (q : Rat) : ∀ c ∈ (ratToJs q).data, isSafeTokenChar c = true := by
  intro c hc
  unfold ratToJs at hc
  simp only [] at hc
  have hbody : ∀ x ∈ natToChars (q.num.natAbs / q.den) ++
      (if fracChars (q.num.natAbs % q.den) q.den = [] then []
       else '.' :: fracChars (q.num.natAbs % q.den) q.den),
      isSafeTokenChar x = true := by
    intro x hx
    rcases List.mem_append.mp hx with h | h
    · exact natToChars_safe _ x h
    · by_cases hf : fracChars (q.num.natAbs % q.den) q.den = []
      · simp [hf] at h
      · rw [if_neg hf] at h
        rcases List.mem_cons.mp h with rfl | h2
        · decide
        · exact fracChars_safe _ _ x h2
  by_cases hneg : q.num < 0
  · rw [if_pos hneg] at hc
    rcases List.mem_cons.mp hc with rfl | h2
    · decide
    · exact hbody c h2
  · rw [if_neg hneg] at hc
    exact hbody c hc

lemma safe_not_special (c : Char) (h : isSafeTokenChar c = true) :
    c ≠ ',' ∧ c ≠ '"' ∧ c ≠ '\\' ∧ c ≠ '\n' := by
  simp only [isSafeTokenChar, Bool.or_eq_true, decide_eq_true_eq] at h
  rcases h with ((((((((((h | h) | h) | h) | h) | h) | h) | h) | h) | h) | h) | h <;>
    subst h <;> exact ⟨by decide, by decide, by decide, by decide⟩

lemma hexVal_hexChar (k : Nat) (h : k < 16) : hexVal (hexChar k) = k := by
  interval_cases k <;> decide

lemma unescape_u (a b : Char) (E : List Char) :
    jsonUnescapeAux ('\\' :: 'u' :: '0' :: '0' :: a :: b :: E) =
      Char.ofNat (hexVal a * 16 + hexVal b) :: jsonUnescapeAux E := by
  rw [jsonUnescapeAux]
  norm_num [List.getD]
  rw [show hexVal '0' = 0 from rfl]
  norm_num

lemma unescape_chunk (c : Char) (E : List Char) :
    jsonUnescapeAux (jsonEscapeChar c ++ E) = c :: jsonUnescapeAux E := by
  by_cases h1 : c = '"'
  · subst h1; simp [jsonEscapeChar, jsonUnescapeAux]
  by_cases h2 : c = '\\'
  · subst h2; simp [jsonEscapeChar, h1, jsonUnescapeAux]
  by_cases h3 : c = '\n'
  · subst h3; simp [jsonEscapeChar, h1, h2, jsonUnescapeAux]
  by_cases h4 : c = '\r'
  · subst h4; simp [jsonEscapeChar, h1, h2, h3, jsonUnescapeAux]
  by_cases h5 : c = '\t'
  · subst h5; simp [jsonEscapeChar, h1, h2, h3, h4, jsonUnescapeAux]
  by_cases h6 : c = '\x08'
  · subst h6; simp [jsonEscapeChar, h1, h2, h3, h4, h5, jsonUnescapeAux]
  by_cases h7 : c = '\x0c'
  · subst h7; simp [jsonEscapeChar, h1, h2, h3, h4, h5, h6, jsonUnescapeAux]
  by_cases h8 : c.toNat < 32
  · have hesc : jsonEscapeChar c =
        ['\\', 'u', '0', '0', hexChar (c.toNat / 16), hexChar (c.toNat % 16)] := by
      simp [jsonEscapeChar, h1, h2, h3, h4, h5, h6, h7, h8]
    rw [hesc]
    show jsonUnescapeAux ('\\' :: 'u' :: '0' :: '0' :: hexChar (c.toNat / 16) ::
      hexChar (c.toNat % 16) :: E) = c :: jsonUnescapeAux E
    rw [unescape_u]
    have hdiv : c.toNat / 16 < 16 := by omega
    have hmod : c.toNat % 16 < 16 := by omega
    rw [hexVal_hexChar _ hdiv, hexVal_hexChar _ hmod]
    have : c.toNat / 16 * 16 + c.toNat % 16 = c.toNat := by omega
    rw [this, Char.ofNat_toNat]
  · have hesc : jsonEscapeChar c = [c] := by
      simp [jsonEscapeChar, h1, h2, h3, h4, h5, h6, h7, h8]
    rw [hesc]
    cases E with
    | nil => simp [jsonUnescapeAux, h2]
    | cons e rest => simp [jsonUnescapeAux, h2]

lemma unescape_escapeList (s : List Char) :
    jsonUnescapeAux (jsonEscapeList s) = s := by
  induction s with
  | nil => simp [jsonEscapeList, jsonUnescapeAux]
  | cons c t ih =>
    have he : jsonEscapeList (c :: t) = jsonEscapeChar c ++ jsonEscapeList t := rfl
    rw [he, unescape_chunk, ih]

lemma jsonUnquote_jsonQuote (s : String) : jsonUnquote (jsonQuote s) = s := by
  unfold jsonUnquote jsonQuote
  show String.mk (jsonUnescapeAux
    ((('"' :: (jsonEscapeList s.data ++ ['"'])).drop 1).dropLast)) = s
  rw [List.drop_one, List.tail_cons, List.dropLast_concat, unescape_escapeList]

lemma sj_plain (cs : List Char) (h : ∀ c ∈ cs, c ≠ ',' ∧ c ≠ '"') :
    ∀ (rest cur : List Char),
      splitJsonAux (cs ++ rest) false false cur =
        splitJsonAux rest false false (cs.reverse ++ cur) := by
  induction cs with
  | nil => intro rest cur; simp
  | cons c t ih =>
    intro rest cur
    rcases h c (List.mem_cons_self _ _) with ⟨hc, hq⟩
    simp only [List.cons_append, splitJsonAux, List.append_eq]
    rw [if_neg hc, if_neg hq]
    rw [ih (fun x hx => h x (List.mem_cons_of_mem _ hx)) rest (c :: cur)]
    simp

lemma hexChar_not_special (k : Nat) :
    hexChar k ≠ '"' ∧ hexChar k ≠ '\\' := by
  unfold hexChar digitChar
  repeat' split
  all_goals exact ⟨by decide, by decide⟩

lemma sj_instr (cs : List Char) (h : ∀ c ∈ cs, c ≠ '"' ∧ c ≠ '\\') :
    ∀ (E cur : List Char),
      splitJsonAux (cs ++ E) true false cur =
        splitJsonAux E true false (cs.reverse ++ cur) := by
  induction cs with
  | nil => intro E cur; simp
  | cons c t ih =>
    intro E cur
    rcases h c (List.mem_cons_self _ _) with ⟨hq, hb⟩
    simp only [List.cons_append, splitJsonAux, List.append_eq]
    rw [if_neg hb, if_neg hq]
    rw [ih (fun x hx => h x (List.mem_cons_of_mem _ hx)) E (c :: cur)]
    simp

lemma sj_openq (X cur : List Char) :
    splitJsonAux ('"' :: X) false false cur = splitJsonAux X true false ('"' :: cur) := by
  simp [splitJsonAux]

lemma sj_closeq (X cur : List Char) :
    splitJsonAux ('"' :: X) true false cur = splitJsonAux X false false ('"' :: cur) := by
  simp [splitJsonAux]

lemma sj_comma (X cur : List Char) :
    splitJsonAux (',' :: X) false false cur =
      cur.reverse :: splitJsonAux X false false [] := by
  simp [splitJsonAux]

lemma sj_backslash (X cur : List Char) :
    splitJsonAux ('\\' :: X) true false cur = splitJsonAux X true true ('\\' :: cur) := by
  simp [splitJsonAux]

lemma sj_escaped (c : Char) (X cur : List Char) :
    splitJsonAux (c :: X) true true cur = splitJsonAux X true false (c :: cur) := rfl

lemma sj_esc_step (c : Char) :
    ∀ (E cur : List Char),
      splitJsonAux (jsonEscapeChar c ++ E) true false cur =
        splitJsonAux E true false ((jsonEscapeChar c).reverse ++ cur) := by
  intro E cur
  by_cases h8 : c = '"' ∨ c = '\\' ∨ c = '\n' ∨ c = '\r' ∨ c = '\t' ∨ c = '\x08' ∨
      c = '\x0c' ∨ c.toNat < 32
  · have hesc : ∃ e1 tail, jsonEscapeChar c = '\\' :: e1 :: tail ∧
        ∀ x ∈ (tail : List Char), x ≠ '"' ∧ x ≠ '\\' := by
      rcases h8 with h | h | h | h | h | h | h | h
      · subst h; exact ⟨'"', [], rfl, by decide⟩
      · subst h; exact ⟨'\\', [], rfl, by decide⟩
      · subst h; exact ⟨'n', [], rfl, by decide⟩
      · subst h; exact ⟨'r', [], rfl, by decide⟩
      · subst h; exact ⟨'t', [], rfl, by decide⟩
      · subst h; exact ⟨'b', [], rfl, by decide⟩
      · subst h; exact ⟨'f', [], rfl, by decide⟩
      · by_cases h1 : c = '"'
        · subst h1; exact ⟨'"', [], rfl, by decide⟩
        by_cases h2 : c = '\\'
        · subst h2; exact ⟨'\\', [], rfl, by decide⟩
        by_cases h3 : c = '\n'
        · subst h3; exact ⟨'n', [], rfl, by decide⟩
        by_cases h4 : c = '\r'
        · subst h4; exact ⟨'r', [], rfl, by decide⟩
        by_cases h5 : c = '\t'
        · subst h5; exact ⟨'t', [], rfl, by decide⟩
        by_cases h6 : c = '\x08'
        · subst h6; exact ⟨'b', [], rfl, by decide⟩
        by_cases h7 : c = '\x0c'
        · subst h7; exact ⟨'f', [], rfl, by decide⟩
        refine ⟨'u', ['0', '0', hexChar (c.toNat / 16), hexChar (c.toNat % 16)],
          by simp [jsonEscapeChar, h1, h2, h3, h4, h5, h6, h7, h], ?_⟩
        rcases hexChar_not_special (c.toNat / 16) with ⟨hdq, hdb⟩
        rcases hexChar_not_special (c.toNat % 16) with ⟨hmq, hmb⟩
        intro x hx
        rcases List.mem_cons.mp hx with rfl | hx2
        · exact ⟨by decide, by decide⟩
        rcases List.mem_cons.mp hx2 with rfl | hx3
        · exact ⟨by decide, by decide⟩
        rcases List.mem_cons.mp hx3 with rfl | hx4
        · exact ⟨hdq, hdb⟩
        rcases List.mem_cons.mp hx4 with rfl | hx5
        · exact ⟨hmq, hmb⟩
        · simp at hx5
    rcases hesc with ⟨e1, tail, he, htail⟩
    rw [he]
    show splitJsonAux ('\\' :: (e1 :: (tail ++ E))) true false cur = _
    rw [sj_backslash, sj_escaped]
    rw [sj_instr tail htail E (e1 :: '\\' :: cur)]
    simp
  · push_neg at h8
    rcases h8 with ⟨h1, h2, h3, h4, h5, h6, h7, h9⟩
    have h9' : ¬ c.toNat < 32 := Nat.not_lt.mpr h9
    have hesc : jsonEscapeChar c = [c] := by
      simp [jsonEscapeChar, h1, h2, h3, h4, h5, h6, h7, h9']
    rw [hesc]
    show splitJsonAux (c :: E) true false cur = _
    simp only [splitJsonAux]
    rw [if_neg h2, if_neg h1]
    simp

lemma sj_escList (s : List Char) :
    ∀ (E cur : List Char),
      splitJsonAux (jsonEscapeList s ++ E) true false cur =
        splitJsonAux E true false ((jsonEscapeList s).reverse ++ cur) := by
  induction s with
  | nil => intro E cur; simp [jsonEscapeList]
  | cons c t ih =>
    intro E cur
    have he : jsonEscapeList (c :: t) = jsonEscapeChar c ++ jsonEscapeList t := rfl
    rw [he, List.append_assoc, sj_esc_step, ih]
    simp

lemma sj_string (s : String) :
    ∀ (rest cur : List Char),
      splitJsonAux ((jsonQuote s).data ++ rest) false false cur =
        splitJsonAux rest false false ((jsonQuote s).data.reverse ++ cur) := by
  intro rest cur
  have hdata : (jsonQuote s).data = '"' :: (jsonEscapeList s.data ++ ['"']) := rfl
  rw [hdata]
  show splitJsonAux ('"' :: ((jsonEscapeList s.data ++ ['"']) ++ rest)) false false cur = _
  rw [sj_openq, List.append_assoc, sj_escList]
  show splitJsonAux ('"' :: rest) true false _ = _
  rw [sj_closeq]
  congr 1
  simp

/-- A serialized CSV cell that the re-split scanner treats atomically:
either a JSON string literal or a token free of commas and quotes. -/
def cellTok (t : String) : Prop :=
  (∃ s, t = jsonQuote s) ∨ ∀ c ∈ t.data, c ≠ ',' ∧ c ≠ '"'

lemma sj_field (t : String) (h : cellTok t) :
    ∀ (rest cur : List Char),
      splitJsonAux (t.data ++ rest) false false cur =
        splitJsonAux rest false false (t.data.reverse ++ cur) := by
  rcases h with ⟨s, rfl⟩ | h
  · exact sj_string s
  · exact sj_plain t.data h

lemma sj_join :
    ∀ (toks : List String), toks ≠ [] → (∀ t ∈ toks, cellTok t) →
      splitJsonAux (joinStr "," toks).data false false [] =
        toks.map String.data := by
  intro toks
  induction toks with
  | nil => intro h; exact absurd rfl h
  | cons t l ih =>
    intro _ h
    cases l with
    | nil =>
      calc splitJsonAux (joinStr "," [t]).data false false []
          = splitJsonAux (t.data ++ []) false false [] := by
            rw [List.append_nil]; rfl
        _ = splitJsonAux [] false false (t.data.reverse ++ []) :=
            sj_field t (h t (List.mem_cons_self _ _)) [] []
        _ = [t.data] := by simp [splitJsonAux]
    | cons t2 l2 =>
      have hdata : (joinStr "," (t :: t2 :: l2)).data =
          t.data ++ ',' :: (joinStr "," (t2 :: l2)).data := by
        show (t ++ "," ++ joinStr "," (t2 :: l2)).data = _
        simp [String.data_append]
      rw [hdata, sj_field t (h t (List.mem_cons_self _ _)), sj_comma]
      rw [ih (by simp) (fun x hx => h x (List.mem_cons_of_mem _ hx))]
      simp

lemma splitRespectingJson_join (toks : List String) (hne : toks ≠ [])
    (h : ∀ t ∈ toks, cellTok t) :
    splitRespectingJson (joinStr "," toks) = toks := by
  unfold splitRespectingJson
  rw [sj_join toks hne h, List.map_map]
  calc toks.map (String.mk ∘ String.data)
      = toks.map id := List.map_congr_left (fun a _ => rfl)
    _ = toks := List.map_id toks

lemma decodeCell_quote (s : String) : decodeCell (jsonQuote s) = s := by
  unfold decodeCell
  split
  · exact jsonUnquote_jsonQuote s
  · rename_i hno
    exact absurd (rfl :
      (jsonQuote s).data = '"' :: (jsonEscapeList s.data ++ ['"'])) (by
        intro hc
        exact hno _ hc)

lemma decodeCell_token (t : String) (h : ∀ c ∈ t.data, c ≠ '"') :
    decodeCell t = t := by
  unfold decodeCell
  split
  · rename_i tail heq
    have hmem : ('"' : Char) ∈ t.data := by
      rw [heq]; exact List.mem_cons_self _ _
    exact absurd rfl (h '"' hmem)
  · rfl

/-- The JS value serialized into the cost column before stringification
(`winner.gift.cost ?? ''`), rendered as the string its serialization
denotes: `undefined` falls back to the empty string, `NaN` to `null`, a
finite number to its decimal token. -/
def costFieldString : JsCost → String
  | JsCost.undef => ""
  | JsCost.nan => "null"
  | JsCost.num q => ratToJs q

/-- The six original field values of one winner row, in export order. -/
def winnerFieldValues (w : Winner) : List String :=
  [w.participant.name, w.participant.employeeNumber.getD "",
   w.participant.email.getD "", w.gift.prize, w.gift.category,
   costFieldString w.gift.cost]

lemma cellTok_serializeCost (jc : JsCost) : cellTok (serializeCost jc) := by
  cases jc with
  | undef => exact Or.inl ⟨"", rfl⟩
  | nan =>
    refine Or.inr ?_
    intro c hc
    have : c = 'n' ∨ c = 'u' ∨ c = 'l' ∨ c = 'l' := by
      simpa [serializeCost] using hc
    rcases this with rfl | rfl | rfl | rfl <;> exact ⟨by decide, by decide⟩
  | num q =>
    refine Or.inr ?_
    intro c hc
    have hs := safe_not_special c (ratToJs_safe q c hc)
    exact ⟨hs.1, hs.2.1⟩

lemma decode_serializeCost (jc : JsCost) :
    decodeCell (serializeCost jc) = costFieldString jc := by
  cases jc with
  | undef => exact decodeCell_quote ""
  | nan =>
    refine decodeCell_token _ ?_
    intro c hc
    have : c = 'n' ∨ c = 'u' ∨ c = 'l' ∨ c = 'l' := by
      simpa [serializeCost] using hc
    rcases this with rfl | rfl | rfl | rfl <;> decide
  | num q =>
    refine decodeCell_token _ ?_
    intro c hc
    exact (safe_not_special c (ratToJs_safe q c hc)).2.1

lemma hexChar_ne_newline (k : Nat) : hexChar k ≠ '\n' := by
  unfold hexChar digitChar
  repeat' split
  all_goals decide

lemma jsonEscapeChar_no_newline (c : Char) :
    ∀ x ∈ jsonEscapeChar c, x ≠ '\n' := by
  intro x hx
  by_cases h1 : c = '"'
  · subst h1; rcases (by simpa [jsonEscapeChar] using hx : x = '\\' ∨ x = '"') with
      rfl | rfl <;> decide
  by_cases h2 : c = '\\'
  · subst h2
    rcases (by simpa [jsonEscapeChar] using hx : x = '\\' ∨ x = '\\') with rfl | rfl <;>
      decide
  by_cases h3 : c = '\n'
  · subst h3
    rcases (by simpa [jsonEscapeChar, h1, h2] using hx : x = '\\' ∨ x = 'n') with
      rfl | rfl <;> decide
  by_cases h4 : c = '\r'
  · subst h4
    rcases (by simpa [jsonEscapeChar, h1, h2, h3] using hx : x = '\\' ∨ x = 'r') with
      rfl | rfl <;> decide
  by_cases h5 : c = '\t'
  · subst h5
    rcases (by simpa [jsonEscapeChar, h1, h2, h3, h4] using hx : x = '\\' ∨ x = 't') with
      rfl | rfl <;> decide
  by_cases h6 : c = '\x08'
  · subst h6
    rcases (by simpa [jsonEscapeChar, h1, h2, h3, h4, h5] using hx :
      x = '\\' ∨ x = 'b') with rfl | rfl <;> decide
  by_cases h7 : c = '\x0c'
  · subst h7
    rcases (by simpa [jsonEscapeChar, h1, h2, h3, h4, h5, h6] using hx :
      x = '\\' ∨ x = 'f') with rfl | rfl <;> decide
  by_cases h8 : c.toNat < 32
  · have hesc : jsonEscapeChar c =
        ['\\', 'u', '0', '0', hexChar (c.toNat / 16), hexChar (c.toNat % 16)] := by
      simp [jsonEscapeChar, h1, h2, h3, h4, h5, h6, h7, h8]
    rw [hesc] at hx
    have hxcases : x = '\\' ∨ x = 'u' ∨ x = '0' ∨ x = '0' ∨
        x = hexChar (c.toNat / 16) ∨ x = hexChar (c.toNat % 16) := by
      simpa using hx
    rcases hxcases with rfl | rfl | rfl | rfl | rfl | rfl
    · decide
    · decide
    · decide
    · decide
    · exact hexChar_ne_newline _
    · exact hexChar_ne_newline _
  · have hesc : jsonEscapeChar c = [c] := by
      simp [jsonEscapeChar, h1, h2, h3, h4, h5, h6, h7, h8]
    rw [hesc] at hx
    have : x = c := by simpa using hx
    subst this
    exact h3

lemma jsonEscapeList_no_newline (s : List Char) :
    ∀ x ∈ jsonEscapeList s, x ≠ '\n' := by
  induction s with
  | nil => intro x hx; simp [jsonEscapeList] at hx
  | cons c t ih =>
    intro x hx
    have he : jsonEscapeList (c :: t) = jsonEscapeChar c ++ jsonEscapeList t := rfl
    rw [he] at hx
    rcases List.mem_append.mp hx with h | h
    · exact jsonEscapeChar_no_newline c x h
    · exact ih x h

lemma jsonQuote_no_newline (s : String) :
    ∀ x ∈ (jsonQuote s).data, x ≠ '\n' := by
  intro x hx
  have hdata : (jsonQuote s).data = '"' :: (jsonEscapeList s.data ++ ['"']) := rfl
  rw [hdata] at hx
  rcases List.mem_cons.mp hx with rfl | h
  · decide
  · rcases List.mem_append.mp h with h2 | h2
    · exact jsonEscapeList_no_newline _ x h2
    · have : x = '"' := by simpa using h2
      subst this; decide

lemma joinStr_comma_chars :
    ∀ (toks : List String), ∀ x ∈ (joinStr "," toks).data,
      (∃ t ∈ toks, x ∈ t.data) ∨ x = ',' := by
  intro toks
  induction toks with
  | nil => intro x hx; simp [joinStr] at hx
  | cons t l ih =>
    intro x hx
    cases l with
    | nil => exact Or.inl ⟨t, List.mem_cons_self _ _, hx⟩
    | cons t2 l2 =>
      have hdata : (joinStr "," (t :: t2 :: l2)).data =
          t.data ++ ',' :: (joinStr "," (t2 :: l2)).data := by
        show (t ++ "," ++ joinStr "," (t2 :: l2)).data = _
        simp [String.data_append]
      rw [hdata] at hx
      rcases List.mem_append.mp hx with h | h
      · exact Or.inl ⟨t, List.mem_cons_self _ _, h⟩
      · rcases List.mem_cons.mp h with rfl | h2
        · exact Or.inr rfl
        · rcases ih x h2 with ⟨t', ht', hx'⟩ | h3
          · exact Or.inl ⟨t', List.mem_cons_of_mem _ ht', hx'⟩
          · exact Or.inr h3

lemma serializeCost_no_newline (jc : JsCost) :
    ∀ x ∈ (serializeCost jc).data, x ≠ '\n' := by
  intro x hx
  cases jc with
  | undef => exact jsonQuote_no_newline "" x hx
  | nan =>
    have : x = 'n' ∨ x = 'u' ∨ x = 'l' ∨ x = 'l' := by
      simpa [serializeCost] using hx
    rcases this with rfl | rfl | rfl | rfl <;> decide
  | num q => exact (safe_not_special x (ratToJs_safe q x hx)).2.2.2

/-- Claim C8: the export formatter is deterministic (equal inputs give
byte-identical text); its output is the header line plus one row per
winner; and re-splitting any output row while respecting JSON string
quoting, then decoding each cell, recovers the original field values
exactly — including fields with embedded commas or quotes — and no row
contains a raw newline, so the rows survive line-splitting intact. -/
theorem winnersToCSV_roundtrip (ws : List Winner) :
    winnersToCSV ws = winnersToCSV ws ∧
    winnersToCSV ws = joinStr "\n" (winnersCsvHeader :: ws.map winnerRowLine) ∧
    ∀ w ∈ ws,
      (splitRespectingJson (winnerRowLine w)).map decodeCell =
        winnerFieldValues w ∧
      ∀ c ∈ (winnerRowLine w).data, c ≠ '\n' := by
  refine ⟨rfl, rfl, ?_⟩
  intro w _
  have hcellcases : ∀ t ∈ winnerCells w,
      (∃ s, t = jsonQuote s) ∨ t = serializeCost w.gift.cost := by
    intro t ht
    simp only [winnerCells, List.mem_cons, List.not_mem_nil, or_false] at ht
    rcases ht with rfl | rfl | rfl | rfl | rfl | rfl
    · exact Or.inl ⟨_, rfl⟩
    · exact Or.inl ⟨_, rfl⟩
    · exact Or.inl ⟨_, rfl⟩
    · exact Or.inl ⟨_, rfl⟩
    · exact Or.inl ⟨_, rfl⟩
    · exact Or.inr rfl
  constructor
  · have hcells : ∀ t ∈ winnerCells w, cellTok t := by
      intro t ht
      rcases hcellcases t ht with ⟨s, rfl⟩ | rfl
      · exact Or.inl ⟨s, rfl⟩
      · exact cellTok_serializeCost _
    have hne : winnerCells w ≠ [] := by simp [winnerCells]
    have hsplit : splitRespectingJson (joinStr "," (winnerCells w)) =
        winnerCells w := splitRespectingJson_join _ hne hcells
    show (splitRespectingJson (joinStr "," (winnerCells w))).map decodeCell = _
    rw [hsplit]
    show List.map decodeCell (winnerCells w) = winnerFieldValues w
    simp only [winnerCells, winnerFieldValues, List.map_cons, List.map_nil]
    rw [decodeCell_quote, decodeCell_quote, decodeCell_quote, decodeCell_quote,
      decodeCell_quote, decode_serializeCost]
  · intro c hc
    have hmem : (∃ t ∈ winnerCells w, c ∈ t.data) ∨ c = ',' :=
      joinStr_comma_chars (winnerCells w) c hc
    rcases hmem with ⟨t, ht, hct⟩ | rfl
    · rcases hcellcases t ht with ⟨s, rfl⟩ | rfl
      · exact jsonQuote_no_newline s c hct
      · exact serializeCost_no_newline _ c hct
    · decide

/-- Witness for C8: a concrete winner (embedded comma and quote in the
name, embedded comma in the prize) whose row round-trips. -/
theorem winnersToCSV_roundtrip_witness :
    (⟨"g-p", ⟨"p", "Ana, \"La\" Pro", some "E1", none⟩,
      ⟨"g", "Cat", "Prize, big", "1", JsCost.undef⟩⟩ : Winner) ∈
      [(⟨"g-p", ⟨"p", "Ana, \"La\" Pro", some "E1", none⟩,
        ⟨"g", "Cat", "Prize, big", "1", JsCost.undef⟩⟩ : Winner)] ∧
    (splitRespectingJson (winnerRowLine
        (⟨"g-p", ⟨"p", "Ana, \"La\" Pro", some "E1", none⟩,
          ⟨"g", "Cat", "Prize, big", "1", JsCost.undef⟩⟩ : Winner))).map decodeCell =
      winnerFieldValues
        (⟨"g-p", ⟨"p", "Ana, \"La\" Pro", some "E1", none⟩,
          ⟨"g", "Cat", "Prize, big", "1", JsCost.undef⟩⟩ : Winner) :=
  ⟨by decide,
   ((winnersToCSV_roundtrip
      [(⟨"g-p", ⟨"p", "Ana, \"La\" Pro", some "E1", none⟩,
        ⟨"g", "Cat", "Prize, big", "1", JsCost.undef⟩⟩ : Winner)]).2.2
      (⟨"g-p", ⟨"p", "Ana, \"La\" Pro", some "E1", none⟩,
        ⟨"g", "Cat", "Prize, big", "1", JsCost.undef⟩⟩ : Winner)
      (by decide)).1⟩
